import Mathlib

/-!
Shallow embedding of the ledger core of the AccountingDjnago repository
(`cashbox/models.py`, `cashbox/views.py`) and proofs of its specified
properties.

Monetary amounts are Python `Decimal` values: a pair of an integer
coefficient and a base-10 exponent (`Dec` below), so that the stored
scale (number of fractional digits) is observable, exactly as in the
source.  The database is a list of persisted transactions; `save`
appends after `full_clean`, which mirrors Django's pipeline on
`Transaction`: field validation of `amount` against
`DecimalField(max_digits=18, decimal_places=6)`, then `clean` (the
half-up quantization of `models.py`), then validation of the
`amount_positive` check constraint.
-/

namespace Cashbox

/-- Python's default decimal context precision (28 significant digits);
`Decimal.quantize` raises `InvalidOperation` when the result coefficient
would be longer than this, which is the `except` branch of
`Transaction.clean`. -/
def decPrec : Nat := 28

/-- Digit counter on fuel (the fuel `n + 1` always suffices, since a
number has at most `n + 1` base-10 digits). -/
def numDigitsAux : Nat → Nat → Nat
  | 0, _ => 0
  | fuel + 1, n => if n < 10 then 1 else numDigitsAux fuel (n / 10) + 1

/-- Number of base-10 digits of a coefficient; the zero coefficient has
digit tuple `(0,)`, i.e. one digit, as in Python's `Decimal.as_tuple`. -/
def numDigits (n : Nat) : Nat := numDigitsAux (n + 1) n

/-- Round a rational to the nearest integer, ties away from zero: the
`ROUND_HALF_UP` rounding mode of Python's `decimal` module. -/
def roundHalfUpInt (q : Rat) : Int :=
  if 0 ≤ q then ⌊q + (1 : Rat) / 2⌋ else -⌊-q + (1 : Rat) / 2⌋

/-- `round_half_up(a, d)`: the spec's rounding of an amount to `d`
fractional digits, half away from zero. -/
def round_half_up (a : Rat) (d : Nat) : Rat :=
  ((roundHalfUpInt (a * 10 ^ d) : Int) : Rat) / 10 ^ d

/-- A Python `Decimal`: coefficient (with sign) and base-10 exponent.
The represented value is `mant * 10 ^ exp`. -/
structure Dec where
  mant : Int
  exp : Int
  deriving DecidableEq, Repr

/-- Numeric value of a `Decimal`. -/
def Dec.value (x : Dec) : Rat :=
  if 0 ≤ x.exp then (x.mant : Rat) * 10 ^ x.exp.toNat
  else (x.mant : Rat) / 10 ^ (-x.exp).toNat

/-- The coefficient of `x` rescaled to exponent `-dp` with half-up
rounding, computed on integer coefficients exactly as Python's
`decimal` does: shift left when the target exponent is smaller, and
otherwise divide by the excess power of ten after adding half of it
(ties away from zero, applied to the absolute value). -/
def Dec.quantCoeff (dp : Nat) (x : Dec) : Int :=
  if 0 ≤ x.exp + dp then x.mant * 10 ^ (x.exp + dp).toNat
  else
    let k := 10 ^ (-(x.exp + dp)).toNat
    x.mant.sign * (((x.mant.natAbs + k / 2) / k : Nat) : Int)

/-- `x.quantize(Decimal(1).scaleb(-dp), rounding=ROUND_HALF_UP)`:
the result has exponent `-dp` and the half-up-rounded coefficient;
`none` when the result coefficient is longer than the context precision
of 28 digits, i.e. at least `10 ^ 28` in absolute value (Python raises
`InvalidOperation` there). -/
def Dec.quantize (dp : Nat) (x : Dec) : Option Dec :=
  let m := x.quantCoeff dp
  if m.natAbs < 10 ^ decPrec then some ⟨m, -(dp : Int)⟩ else none

/-- `Currency` model (`models.py`). -/
structure Currency where
  code : String
  name : String
  symbol : String
  decimal_places : Nat
  is_active : Bool
  deriving DecidableEq, Repr

/-- `CashBox` model (`models.py`); `customer` and `account_type` are
kept as the referenced customer id and account-type code. -/
structure CashBox where
  id : Nat
  customer : Nat
  currency : Currency
  account_type : String
  name : String
  deriving DecidableEq, Repr

/-- `Transaction.Direction` choices. -/
inductive Direction where
  | DEPOSIT
  | WITHDRAW
  deriving DecidableEq, Repr

/-- `Transaction` model (`models.py`); the `cashbox` foreign key is
embedded as the referenced box (it is non-nullable, so every persisted
transaction has one). -/
structure Transaction where
  id : Nat
  cashbox : CashBox
  direction : Direction
  amount : Dec
  note : String
  deriving DecidableEq, Repr

/-- A Django `ValidationError` entry: either attached to a field or a
non-field (constraint) error. -/
inductive VError where
  | fieldError (field : String) (message : String)
  | nonFieldError (message : String)
  deriving DecidableEq, Repr

/-- `django.core.validators.DecimalValidator(max_digits, decimal_places)`
applied to the `amount` field during `clean_fields`: checks total digits,
decimal places and whole digits of the `Decimal` as written. -/
def decimalValidator (max_digits decimal_places : Nat) (x : Dec) : List VError :=
  let dt := numDigits x.mant.natAbs
  let digits :=
    if 0 ≤ x.exp then (if x.mant = 0 then dt else dt + x.exp.toNat)
    else (if dt < (-x.exp).toNat then (-x.exp).toNat else dt)
  let decimals := if 0 ≤ x.exp then 0 else (-x.exp).toNat
  let whole := digits - decimals
  (if max_digits < digits then
    [VError.fieldError "amount"
      ("Ensure that there are no more than " ++ toString max_digits ++ " digits in total.")]
   else []) ++
  (if decimal_places < decimals then
    [VError.fieldError "amount"
      ("Ensure that there are no more than " ++ toString decimal_places ++ " decimal places.")]
   else []) ++
  (if max_digits - decimal_places < whole then
    [VError.fieldError "amount"
      ("Ensure that there are no more than " ++ toString (max_digits - decimal_places) ++ " digits before the decimal point.")]
   else [])

/-- `Transaction.clean` (`models.py` lines 87-96): quantize the amount to
the box currency's `decimal_places` with `ROUND_HALF_UP`; a quantize
failure raises a `ValidationError` naming the currency code. -/
def Transaction.clean (t : Transaction) : Except VError Transaction :=
  match t.amount.quantize t.cashbox.currency.decimal_places with
  | some a => .ok { t with amount := a }
  | none =>
    .error (.fieldError "amount"
      ("Invalid amount precision for " ++ t.cashbox.currency.code))

/-- Message raised when the `amount_positive` check constraint is
violated during `validate_constraints`. -/
def amountPositiveMsg : String := "Constraint amount_positive is violated."

/-- The `amount > 0` comparison of the `amount_positive` check
constraint: a `Decimal` is numerically positive exactly when its
coefficient is positive (`Dec.pos_iff_value` below). -/
def Dec.isPos (x : Dec) : Bool := 0 < x.mant

/-- `Model.full_clean` on a `Transaction`: `clean_fields` (the
`DecimalValidator(18, 6)` of the `amount` column), then `clean` (which
runs even if field validation failed and updates the amount in place),
then `validate_constraints` on the current amount; all errors are
collected and any error aborts. -/
def Transaction.full_clean (t : Transaction) : Except (List VError) Transaction :=
  let fieldErrs := decimalValidator 18 6 t.amount
  match t.clean with
  | .ok t' =>
    let errs := fieldErrs ++
      (if t'.amount.isPos then [] else [VError.nonFieldError amountPositiveMsg])
    if errs.isEmpty then .ok t' else .error errs
  | .error e =>
    .error (fieldErrs ++ [e] ++
      (if t.amount.isPos then [] else [VError.nonFieldError amountPositiveMsg]))

/-- `Transaction.save` (`models.py` lines 98-100): `full_clean` then
insert; the database is the list of persisted transactions. -/
def Transaction.save (db : List Transaction) (t : Transaction) :
    Except (List VError) (List Transaction) :=
  match t.full_clean with
  | .ok t' => .ok (db ++ [t'])
  | .error e => .error e

/-- A transaction-creation request as seen from the stored state: on a
validation error the database is unchanged and the errors are reported. -/
def postTransaction (db : List Transaction) (t : Transaction) :
    List Transaction × Option (List VError) :=
  match Transaction.save db t with
  | .ok db' => (db', none)
  | .error e => (db, some e)

/-- Sign a transaction's amount by its direction: `+amount` for
`DEPOSIT`, `-amount` for `WITHDRAW` (the `Case`/`When` of
`CashBox.balance`). -/
def signedAmount (t : Transaction) : Rat :=
  match t.direction with
  | .DEPOSIT => t.amount.value
  | .WITHDRAW => -t.amount.value

/-- `box.transactions`: the rows whose foreign key is this box. -/
def boxTransactions (box : CashBox) (db : List Transaction) : List Transaction :=
  db.filter (fun t => decide (t.cashbox = box))

/-- `CashBox.balance` (`models.py` lines 52-64): SQL `Sum` of the signed
amounts; the aggregate is `NULL` over no rows, and `signed_sum or
Decimal("0")` turns that into zero. -/
def CashBox.balance (box : CashBox) (db : List Transaction) : Rat :=
  match boxTransactions box db with
  | [] => 0
  | txs => (txs.map signedAmount).sum

/-- Sum of the deposit amounts of a box. -/
def depositSum (box : CashBox) (db : List Transaction) : Rat :=
  ((db.filter (fun t => decide (t.cashbox = box) &&
      decide (t.direction = Direction.DEPOSIT))).map (fun t => t.amount.value)).sum

/-- Sum of the withdrawal amounts of a box. -/
def withdrawSum (box : CashBox) (db : List Transaction) : Rat :=
  ((db.filter (fun t => decide (t.cashbox = box) &&
      decide (t.direction = Direction.WITHDRAW))).map (fun t => t.amount.value)).sum

/-- The transactions of all of a customer's boxes
(`Transaction.objects.filter(cashbox__customer=customer)`). -/
def customerTxs (customer : Nat) (db : List Transaction) : List Transaction :=
  db.filter (fun t => decide (t.cashbox.customer = customer))

/-- The distinct currency codes of a customer's transactions, in order of
first appearance (the `values("cashbox__currency__code")` grouping keys). -/
def currencyCodes (txs : List Transaction) : List String :=
  (txs.map (fun t => t.cashbox.currency.code)).dedup

/-- Signed sum of a customer's transactions in boxes of one currency. -/
def currencyBalance (customer : Nat) (code : String) (db : List Transaction) : Rat :=
  (((customerTxs customer db).filter
      (fun t => decide (t.cashbox.currency.code = code))).map signedAmount).sum

/-- `CustomerReportView.get_context_data` per-currency mapping
(`views.py` lines 38-51): group the customer's transactions by the
owning box's currency code, with the signed `Sum` per group. -/
def perCurrency (customer : Nat) (db : List Transaction) : List (String × Rat) :=
  (currencyCodes (customerTxs customer db)).map
    (fun c => (c, currencyBalance customer c db))

/-- The report's grand total (`views.py` line 52): the plain numeric sum
of the per-currency balances, with no currency conversion. -/
def reportTotal (customer : Nat) (db : List Transaction) : Rat :=
  ((perCurrency customer db).map (fun p => p.2)).sum

/-- Python `str.strip()`'s ASCII whitespace. -/
def isPySpace (c : Char) : Bool :=
  c = ' ' || c = '\t' || c = '\n' || c = '\r' || c = '\x0b' || c = '\x0c'

/-- `q.strip()`. -/
def pyStrip (s : String) : String :=
  ⟨((s.data.dropWhile isPySpace).reverse.dropWhile isPySpace).reverse⟩

/-- An ASCII decimal digit (the class matched by the id-extraction
pattern on the search input). -/
def isDigitChar (c : Char) : Bool := '0' ≤ c && c ≤ '9'

/-- `re.search(r"(\d+)", q)`: the first maximal contiguous run of
decimal digits anywhere in the input, if any. -/
def firstDigitRun : List Char → Option (List Char)
  | [] => none
  | c :: cs =>
    if isDigitChar c then some (c :: cs.takeWhile isDigitChar)
    else firstDigitRun cs

/-- `int(...)` on a run of digits: base-10 value, leading zeros
insignificant. -/
def natOfDigits (cs : List Char) : Nat :=
  cs.foldl (fun acc c => 10 * acc + (c.toNat - '0'.toNat)) 0

/-- Outcome of `transaction_search` (`views.py` lines 182-211): plain
redirect to the dashboard, redirect with the `tx_not_found` flag, or
redirect to the matching transaction's page. -/
inductive SearchResult where
  | dashboard
  | notFound
  | found (pk : Nat)
  deriving DecidableEq, Repr

/-- `transaction_search`: strip the query; empty input goes straight
back to the dashboard; otherwise extract the first digit run, and look
the id up, reporting not-found on a missing run or a missing row. -/
def transaction_search (db : List Transaction) (q : String) : SearchResult :=
  let q := pyStrip q
  if q.isEmpty then .dashboard
  else
    match firstDigitRun q.data with
    | none => .notFound
    | some run =>
      let pk := natOfDigits run
      if db.any (fun t => t.id == pk) then .found pk else .notFound

deriving instance DecidableEq for Except

/-! ### Arithmetic facts about `Dec` and half-up rounding -/

/-- Half-up rounding of an integer is the integer itself. -/
theorem roundHalfUpInt_intCast (m : Int) : roundHalfUpInt ((m : Rat)) = m := by
  unfold roundHalfUpInt
  rcases le_or_lt 0 (m : Rat) with h | h
  · rw [if_pos h]
    have : ((1 : Rat) / 2) = ((1 : Rat) / 2) := rfl
    have h0 : ⌊(m : Rat) + 1 / 2⌋ = m + ⌊(1 : Rat) / 2⌋ := Int.floor_int_add m (1 / 2)
    have h1 : ⌊(1 : Rat) / 2⌋ = 0 := by norm_num [Int.floor_eq_zero_iff]
    omega
  · rw [if_neg (not_le.mpr h)]
    have h0 : -(m : Rat) = ((-m : Int) : Rat) := by push_cast; ring
    rw [h0]
    have h2 : ⌊((-m : Int) : Rat) + 1 / 2⌋ = -m + ⌊(1 : Rat) / 2⌋ := Int.floor_int_add (-m) (1 / 2)
    have h1 : ⌊(1 : Rat) / 2⌋ = 0 := by norm_num [Int.floor_eq_zero_iff]
    omega

/-- A `Decimal` with exponent `-dp` has value `coefficient / 10 ^ dp`. -/
theorem Dec.value_mk_neg (m : Int) (dp : Nat) :
    Dec.value ⟨m, -(dp : Int)⟩ = (m : Rat) / 10 ^ dp := by
  simp only [Dec.value]
  rcases Nat.eq_zero_or_pos dp with h | h
  · subst h; norm_num
  · rw [if_neg (by simp; omega)]
    congr 2
    omega

/-- A `Decimal` is numerically positive exactly when its coefficient is. -/
theorem Dec.pos_iff_value (x : Dec) : x.isPos = true ↔ 0 < x.value := by
  unfold Dec.isPos Dec.value
  have h10 : ∀ k : Nat, (0 : Rat) < 10 ^ k := fun k => by positivity
  constructor
  · intro h
    have hm : 0 < x.mant := by simpa using h
    have hm' : (0 : Rat) < (x.mant : Rat) := by exact_mod_cast hm
    split
    · exact mul_pos hm' (h10 _)
    · exact div_pos hm' (h10 _)
  · intro h
    simp only [decide_eq_true_eq]
    by_contra hm
    have hm' : (x.mant : Rat) ≤ 0 := by exact_mod_cast not_lt.mp hm
    have : ¬ (0 : Rat) < (if 0 ≤ x.exp then (x.mant : Rat) * 10 ^ x.exp.toNat
        else (x.mant : Rat) / 10 ^ (-x.exp).toNat) := by
      split
      · exact not_lt.mpr (mul_nonpos_of_nonpos_of_nonneg hm' (le_of_lt (h10 _)))
      · exact not_lt.mpr (div_nonpos_of_nonpos_of_nonneg hm' (le_of_lt (h10 _)))
    exact this h

/-- Half-up rounding of `a / 10 ^ j` for a natural coefficient `a` and
`j ≥ 1` is division after adding half the denominator. -/
theorem floor_add_half (a j : Nat) (hj : 1 ≤ j) :
    ⌊(a : Rat) / 10 ^ j + 1 / 2⌋ = (((a + 10 ^ j / 2) / 10 ^ j : Nat) : Int) := by
  have h2 : (2 : Nat) ∣ 10 ^ j := dvd_pow (by norm_num) (by omega)
  have hh : 2 * (10 ^ j / 2) = 10 ^ j := Nat.mul_div_cancel' h2
  have hmono : (10 : Nat) ^ 1 ≤ 10 ^ j := Nat.pow_le_pow_right (by norm_num) hj
  have hhpos : 0 < 10 ^ j / 2 := by omega
  have hrpos : (0 : Rat) < ((10 ^ j / 2 : Nat) : Rat) := by exact_mod_cast hhpos
  have key : (a : Rat) / 10 ^ j + 1 / 2 =
      ((a + 10 ^ j / 2 : Nat) : Rat) / ((10 ^ j : Nat) : Rat) := by
    have hcast : ((10 ^ j : Nat) : Rat) = 2 * ((10 ^ j / 2 : Nat) : Rat) := by
      exact_mod_cast congrArg (fun n : Nat => ((n : Rat))) hh.symm
    have hTen : ((10 : Rat)) ^ j = 2 * ((10 ^ j / 2 : Nat) : Rat) := by
      rw [← hcast]; push_cast; ring
    rw [hcast, Nat.cast_add, hTen]
    have hne : (2 : Rat) * ((10 ^ j / 2 : Nat) : Rat) ≠ 0 :=
      mul_ne_zero two_ne_zero (ne_of_gt hrpos)
    rw [div_add_div _ _ hne two_ne_zero,
      div_eq_div_iff (mul_ne_zero hne two_ne_zero) hne]
    ring
  rw [key]
  have hc : ((a + 10 ^ j / 2 : Nat) : Rat) = (((a + 10 ^ j / 2 : Nat) : Int) : Rat) :=
    (Int.cast_natCast _).symm
  rw [hc, Rat.floor_intCast_div_natCast]
  exact ((Int.natCast_ediv (a + 10 ^ j / 2) (10 ^ j)).trans rfl).symm

/-- The integer-coefficient computation of `Dec.quantCoeff` is exactly
half-up rounding of the numeric value rescaled to `dp` places. -/
theorem Dec.quantCoeff_eq (dp : Nat) (x : Dec) :
    x.quantCoeff dp = roundHalfUpInt (x.value * 10 ^ dp) := by
  unfold Dec.quantCoeff
  by_cases h : 0 ≤ x.exp + dp
  · rw [if_pos h]
    have hv : x.value * 10 ^ dp = ((x.mant * 10 ^ (x.exp + dp).toNat : Int) : Rat) := by
      unfold Dec.value
      by_cases he : 0 ≤ x.exp
      · rw [if_pos he]
        have ht : (x.exp + dp).toNat = x.exp.toNat + dp := by omega
        rw [ht]; push_cast; ring
      · rw [if_neg he]
        have hk : (x.exp + dp).toNat = dp - (-x.exp).toNat := by omega
        have hle : (-x.exp).toNat ≤ dp := by omega
        rw [hk]
        have hsplit : dp = (-x.exp).toNat + (dp - (-x.exp).toNat) := by omega
        rw [show (10 : Rat) ^ dp = 10 ^ ((-x.exp).toNat + (dp - (-x.exp).toNat)) by rw [← hsplit]]
        rw [pow_add]
        have hne : ((10 : Rat) ^ (-x.exp).toNat) ≠ 0 := by positivity
        push_cast
        field_simp
        ring
    rw [hv, roundHalfUpInt_intCast]
  · rw [if_neg h]
    have hexp : ¬ 0 ≤ x.exp := by omega
    have hv : x.value * 10 ^ dp = (x.mant : Rat) / 10 ^ (-(x.exp + dp)).toNat := by
      unfold Dec.value
      rw [if_neg hexp]
      have hk : (-x.exp).toNat = dp + (-(x.exp + dp)).toNat := by omega
      rw [hk, pow_add]
      have hne1 : ((10 : Rat) ^ dp) ≠ 0 := by positivity
      have hne2 : ((10 : Rat) ^ (-(x.exp + dp)).toNat) ≠ 0 := by positivity
      field_simp
      ring
    rw [hv]
    have hj : 1 ≤ (-(x.exp + dp)).toNat := by omega
    rcases lt_trichotomy x.mant 0 with hm | hm | hm
    · have hsign : x.mant.sign = -1 := Int.sign_eq_neg_one_of_neg hm
      have habs : ((x.mant.natAbs : Rat)) = -(x.mant : Rat) := by
        rw [Int.cast_natAbs, Int.cast_abs,
          abs_of_neg (show (x.mant : Rat) < 0 by exact_mod_cast hm)]
      have hq : (x.mant : Rat) / 10 ^ (-(x.exp + dp)).toNat < 0 := by
        apply div_neg_of_neg_of_pos
        · exact_mod_cast hm
        · positivity
      unfold roundHalfUpInt
      rw [if_neg (not_le.mpr hq), hsign]
      have hneg : -((x.mant : Rat) / 10 ^ (-(x.exp + dp)).toNat) =
          (x.mant.natAbs : Rat) / 10 ^ (-(x.exp + dp)).toNat := by
        rw [habs]; ring
      rw [hneg, floor_add_half _ _ hj]
      ring
    · rw [hm]
      simp [roundHalfUpInt]
      norm_num [Int.floor_eq_zero_iff]
    · have hsign : x.mant.sign = 1 := Int.sign_eq_one_of_pos hm
      have habs : ((x.mant.natAbs : Rat)) = (x.mant : Rat) := by
        rw [Int.cast_natAbs, Int.cast_abs,
          abs_of_pos (show (0 : Rat) < (x.mant : Rat) by exact_mod_cast hm)]
      have hq : 0 ≤ (x.mant : Rat) / 10 ^ (-(x.exp + dp)).toNat := by
        apply div_nonneg
        · exact_mod_cast le_of_lt hm
        · positivity
      unfold roundHalfUpInt
      rw [if_pos hq, hsign, ← habs, floor_add_half _ _ hj]
      ring

/-- What a successful quantize returns: the half-up-rounded coefficient
at exponent `-dp`, whose value is `round_half_up` of the input value. -/
theorem Dec.quantize_eq_some (dp : Nat) (x y : Dec) (h : Dec.quantize dp x = some y) :
    y.mant = roundHalfUpInt (x.value * 10 ^ dp) ∧ y.exp = -(dp : Int) ∧
      y.value = round_half_up x.value dp := by
  simp only [Dec.quantize] at h
  split at h
  · cases h
    refine ⟨Dec.quantCoeff_eq dp x, rfl, ?_⟩
    rw [Dec.value_mk_neg, Dec.quantCoeff_eq dp x, round_half_up]
  · cases h

/-- Quantize succeeds exactly when the rounded coefficient fits in the
context precision. -/
theorem Dec.quantize_isSome_iff (dp : Nat) (x : Dec) :
    (Dec.quantize dp x).isSome = true ↔
      (roundHalfUpInt (x.value * 10 ^ dp)).natAbs < 10 ^ decPrec := by
  simp only [Dec.quantize, ← Dec.quantCoeff_eq dp x]
  split
  · rename_i hlt
    simp [hlt]
  · rename_i hlt
    simp [hlt]

/-- Quantizing a `Decimal` already written at exponent `-dp` returns it
unchanged (when its coefficient fits the context precision). -/
theorem Dec.quantize_fixed (dp : Nat) (x : Dec) (hexp : x.exp = -(dp : Int))
    (hfit : x.mant.natAbs < 10 ^ decPrec) : Dec.quantize dp x = some x := by
  have hco : x.quantCoeff dp = x.mant := by
    rw [Dec.quantCoeff_eq]
    have hv : x.value * 10 ^ dp = ((x.mant : Int) : Rat) := by
      obtain ⟨m, e⟩ := x
      simp only at hexp
      subst hexp
      rw [Dec.value_mk_neg]
      have hne : ((10 : Rat) ^ dp) ≠ 0 := by positivity
      field_simp
    rw [hv, roundHalfUpInt_intCast]
  simp only [Dec.quantize, hco]
  rw [if_pos hfit]
  obtain ⟨m, e⟩ := x
  simp only at hexp
  subst hexp
  rfl

/-- A successful `clean` only rewrites the amount, to the half-up
rounding of the input at the box currency's scale. -/
theorem Transaction.clean_ok (t u : Transaction) (h : t.clean = .ok u) :
    u.id = t.id ∧ u.cashbox = t.cashbox ∧ u.direction = t.direction ∧ u.note = t.note ∧
      u.amount.exp = -(t.cashbox.currency.decimal_places : Int) ∧
      u.amount.value = round_half_up t.amount.value t.cashbox.currency.decimal_places := by
  unfold Transaction.clean at h
  split at h
  · cases h
    rename_i a ha
    obtain ⟨_, he, hv⟩ := Dec.quantize_eq_some _ _ _ ha
    exact ⟨rfl, rfl, rfl, rfl, he, hv⟩
  · cases h

/-- A successful `full_clean` means: the field validator passed, `clean`
succeeded, and the cleaned amount passed the positivity constraint. -/
theorem Transaction.full_clean_ok (t u : Transaction) (h : t.full_clean = .ok u) :
    decimalValidator 18 6 t.amount = [] ∧ t.clean = .ok u ∧ u.amount.isPos = true := by
  cases hclean : t.clean with
  | ok t' =>
    cases hpos : t'.amount.isPos with
    | true =>
      simp [Transaction.full_clean, hclean, hpos] at h
      split at h
      · rename_i hemp
        cases h
        exact ⟨hemp, rfl, hpos⟩
      · cases h
    | false =>
      simp [Transaction.full_clean, hclean, hpos] at h
  | error e =>
    simp [Transaction.full_clean, hclean] at h

/-- Conversely, `full_clean` succeeds when the validator passes, `clean`
succeeds and the cleaned amount is positive. -/
theorem Transaction.full_clean_ok_of (t u : Transaction)
    (hval : decimalValidator 18 6 t.amount = [])
    (hclean : t.clean = .ok u) (hpos : u.amount.isPos = true) :
    t.full_clean = .ok u := by
  simp [Transaction.full_clean, hclean, hval, hpos]

/-- `full_clean` fails whenever the half-up rounding of the amount at
the box currency's scale is not strictly positive. -/
theorem Transaction.full_clean_error_of_nonpos (t : Transaction)
    (hnp : round_half_up t.amount.value t.cashbox.currency.decimal_places ≤ 0) :
    ∃ errs, t.full_clean = .error errs ∧ errs ≠ [] := by
  cases hclean : t.clean with
  | ok t' =>
    have hval := Transaction.clean_ok t t' hclean
    have hvnp : ¬ 0 < t'.amount.value := by
      rw [hval.2.2.2.2.2]
      exact not_lt.mpr hnp
    have hpos : t'.amount.isPos = false := by
      cases hb : t'.amount.isPos with
      | false => rfl
      | true => exact absurd ((Dec.pos_iff_value _).mp hb) hvnp
    refine ⟨decimalValidator 18 6 t.amount ++ [VError.nonFieldError amountPositiveMsg], ?_, by simp⟩
    simp [Transaction.full_clean, hclean, hpos]
  | error e =>
    refine ⟨decimalValidator 18 6 t.amount ++ [e] ++
      (if t.amount.isPos then [] else [VError.nonFieldError amountPositiveMsg]), ?_, by simp⟩
    simp [Transaction.full_clean, hclean]

/-- `save` on a validation failure reports the errors. -/
theorem postTransaction_error (db : List Transaction) (t : Transaction)
    (errs : List VError) (h : t.full_clean = .error errs) :
    postTransaction db t = (db, some errs) := by
  unfold postTransaction Transaction.save
  rw [h]

/-- `save` on success appends the cleaned row. -/
theorem postTransaction_ok (db : List Transaction) (t u : Transaction)
    (h : t.full_clean = .ok u) : postTransaction db t = (db ++ [u], none) := by
  unfold postTransaction Transaction.save
  rw [h]

/-- `save` succeeds exactly when `full_clean` does, appending its row. -/
theorem Transaction.save_ok (db db' : List Transaction) (t : Transaction)
    (h : Transaction.save db t = .ok db') :
    ∃ u, t.full_clean = .ok u ∧ db' = db ++ [u] := by
  unfold Transaction.save at h
  cases hfc : t.full_clean with
  | ok u => rw [hfc] at h; cases h; exact ⟨u, rfl, rfl⟩
  | error e => rw [hfc] at h; cases h

/-! ### Balance aggregation -/

/-- The `NULL`-guarded aggregate equals the plain signed sum (the sum
over no rows is zero). -/
theorem CashBox.balance_eq_sum (box : CashBox) (db : List Transaction) :
    box.balance db = ((boxTransactions box db).map signedAmount).sum := by
  unfold CashBox.balance
  split
  · rename_i heq
    rw [heq]
    simp
  · rfl

/-- A signed sum splits into the deposit part minus the withdrawal part. -/
theorem sum_signed_split (l : List Transaction) :
    (l.map signedAmount).sum =
      ((l.filter (fun t => decide (t.direction = Direction.DEPOSIT))).map
        (fun t => t.amount.value)).sum -
      ((l.filter (fun t => decide (t.direction = Direction.WITHDRAW))).map
        (fun t => t.amount.value)).sum := by
  induction l with
  | nil => simp
  | cons a l ih =>
    cases hd : a.direction with
    | DEPOSIT =>
      simp only [List.map_cons, List.sum_cons, List.filter_cons, hd, signedAmount]
      simp [ih]
      ring
    | WITHDRAW =>
      simp only [List.map_cons, List.sum_cons, List.filter_cons, hd, signedAmount]
      simp [ih]
      ring

/-- Filtering a box's rows by direction is filtering the table by both
conditions. -/
theorem boxTransactions_filter_dir (box : CashBox) (db : List Transaction) (d : Direction) :
    (boxTransactions box db).filter (fun t => decide (t.direction = d)) =
      db.filter (fun t => decide (t.cashbox = box) && decide (t.direction = d)) := by
  unfold boxTransactions
  rw [List.filter_filter]
  apply List.filter_congr
  intro t _
  rw [Bool.and_comm]

/-- The balance of a box is the sum of its deposits minus the sum of
its withdrawals. -/
theorem balance_eq_deposits_sub_withdrawals (box : CashBox) (db : List Transaction) :
    box.balance db = depositSum box db - withdrawSum box db := by
  rw [CashBox.balance_eq_sum, sum_signed_split, depositSum, withdrawSum,
    boxTransactions_filter_dir, boxTransactions_filter_dir]

/-- The balance is invariant under reordering of the transaction table. -/
theorem balance_perm (box : CashBox) (db db' : List Transaction) (h : db.Perm db') :
    box.balance db = box.balance db' := by
  rw [CashBox.balance_eq_sum, CashBox.balance_eq_sum]
  exact ((h.filter _).map signedAmount).sum_eq

/-- Appending one row of the box adds its signed amount to the balance. -/
theorem balance_append (box : CashBox) (db : List Transaction) (t : Transaction)
    (h : t.cashbox = box) :
    box.balance (db ++ [t]) = box.balance db + signedAmount t := by
  rw [CashBox.balance_eq_sum, CashBox.balance_eq_sum]
  unfold boxTransactions
  rw [List.filter_append]
  simp [List.filter_cons, h]

/-- Sums of values over a table of positive rows are nonnegative. -/
theorem withdrawSum_nonneg (box : CashBox) (db : List Transaction)
    (h : ∀ u ∈ db, 0 < u.amount.value) : 0 ≤ withdrawSum box db := by
  unfold withdrawSum
  apply List.sum_nonneg
  intro x hx
  rcases List.mem_map.mp hx with ⟨u, hu, rfl⟩
  exact le_of_lt (h u (List.mem_of_mem_filter hu))

/-! ### Grouped sums for the customer report -/

/-- Sums distribute over pointwise addition of mapped functions. -/
theorem sum_map_add {β : Type} (l : List β) (f g : β → Rat) :
    (l.map (fun x => f x + g x)).sum = (l.map f).sum + (l.map g).sum := by
  induction l with
  | nil => simp
  | cons a l ih =>
    simp [ih]
    ring

/-- Summing an indicator over a duplicate-free key list picks out the
one key's weight. -/
theorem sum_map_ite_single {β : Type} [DecidableEq β] (keys : List β) (b : β) (w : Rat)
    (hnd : keys.Nodup) (hb : b ∈ keys) :
    (keys.map (fun c => if b = c then w else 0)).sum = w := by
  induction keys with
  | nil => cases hb
  | cons k ks ih =>
    rcases List.nodup_cons.mp hnd with ⟨hk, hnd'⟩
    rcases List.mem_cons.mp hb with h | h
    · subst h
      rw [List.map_cons, List.sum_cons, if_pos rfl]
      have hzero : ∀ y ∈ ks.map (fun c => if b = c then w else 0), y = 0 := by
        intro y hy
        rcases List.mem_map.mp hy with ⟨c, hc, rfl⟩
        rw [if_neg]
        intro hbc
        exact hk (hbc ▸ hc)
      rw [List.sum_eq_zero hzero, add_zero]
    · have hbk : b ≠ k := by
        intro hbk
        exact hk (hbk ▸ h)
      rw [List.map_cons, List.sum_cons, if_neg hbk, ih hnd' h, zero_add]

/-- Grouping a list by keys that cover it and summing the groups gives
the total sum. -/
theorem sum_fiberwise {α β : Type} [DecidableEq β] (l : List α) (key : α → β)
    (w : α → Rat) (keys : List β) (hnd : keys.Nodup) (hcov : ∀ x ∈ l, key x ∈ keys) :
    (keys.map (fun c => ((l.filter (fun x => decide (key x = c))).map w).sum)).sum
      = (l.map w).sum := by
  induction l with
  | nil => simp
  | cons a l ih =>
    have hcov' : ∀ x ∈ l, key x ∈ keys := fun x hx => hcov x (List.mem_cons_of_mem _ hx)
    have hfun : (fun c => (((a :: l).filter (fun x => decide (key x = c))).map w).sum)
        = fun c => (if key a = c then w a else 0)
            + ((l.filter (fun x => decide (key x = c))).map w).sum := by
      funext c
      by_cases hc : key a = c
      · simp [List.filter_cons, hc]
      · simp [List.filter_cons, hc]
    rw [hfun, sum_map_add,
      sum_map_ite_single keys (key a) (w a) hnd (hcov a (List.mem_cons_self a l)), ih hcov']
    simp

/-- Each row of the per-currency report carries the signed sum of the
customer's transactions in boxes of that currency. -/
theorem perCurrency_mem (cid : Nat) (db : List Transaction) (p : String × Rat)
    (hp : p ∈ perCurrency cid db) : p.2 = currencyBalance cid p.1 db := by
  unfold perCurrency at hp
  rcases List.mem_map.mp hp with ⟨c, _, rfl⟩
  rfl

/-- A currency code appears in the report exactly when the customer has
a transaction in a box of that currency. -/
theorem perCurrency_keys (cid : Nat) (db : List Transaction) (c : String) :
    (∃ r, (c, r) ∈ perCurrency cid db) ↔
      ∃ t ∈ customerTxs cid db, t.cashbox.currency.code = c := by
  constructor
  · rintro ⟨r, hr⟩
    unfold perCurrency at hr
    rcases List.mem_map.mp hr with ⟨c', hc', heq⟩
    cases heq
    unfold currencyCodes at hc'
    rcases List.mem_map.mp (List.mem_dedup.mp hc') with ⟨t, ht, rfl⟩
    exact ⟨t, ht, rfl⟩
  · rintro ⟨t, ht, rfl⟩
    refine ⟨currencyBalance cid t.cashbox.currency.code db, ?_⟩
    unfold perCurrency
    apply List.mem_map_of_mem
    unfold currencyCodes
    exact List.mem_dedup.mpr (List.mem_map_of_mem _ ht)

/-- The report's grand total is the plain signed sum over all of the
customer's transactions (no conversion between currencies). -/
theorem reportTotal_eq (cid : Nat) (db : List Transaction) :
    reportTotal cid db = ((customerTxs cid db).map signedAmount).sum := by
  unfold reportTotal perCurrency currencyCodes
  rw [List.map_map]
  have hcomp : ((fun p : String × Rat => p.2) ∘ fun c => (c, currencyBalance cid c db))
      = fun c => currencyBalance cid c db := rfl
  rw [hcomp]
  unfold currencyBalance
  apply sum_fiberwise (customerTxs cid db) (fun t => t.cashbox.currency.code) signedAmount
    _ (List.nodup_dedup _)
  intro x hx
  exact List.mem_dedup.mpr (List.mem_map_of_mem _ hx)

/-! ### Helpers for transaction creation and search -/

/-- The spec-side rounding expressed through the code-side coefficient. -/
theorem round_half_up_value (x : Dec) (dp : Nat) :
    round_half_up x.value dp = ((x.quantCoeff dp : Int) : Rat) / 10 ^ dp := by
  rw [round_half_up, Dec.quantCoeff_eq]

/-- The rounded value is positive exactly when the rounded coefficient is. -/
theorem round_half_up_pos_iff (x : Dec) (dp : Nat) :
    0 < round_half_up x.value dp ↔ 0 < x.quantCoeff dp := by
  rw [round_half_up_value]
  rw [div_pos_iff_of_pos_right (by positivity)]
  exact Int.cast_pos

/-- When the validator passes, the rounded coefficient fits the context
precision, and the rounded value is positive, `full_clean` succeeds and
stores the quantized amount. -/
theorem Transaction.full_clean_succeeds (t : Transaction)
    (hval : decimalValidator 18 6 t.amount = [])
    (hfit : (t.amount.quantCoeff t.cashbox.currency.decimal_places).natAbs < 10 ^ decPrec)
    (hpos : 0 < round_half_up t.amount.value t.cashbox.currency.decimal_places) :
    t.full_clean = .ok { t with amount :=
      ⟨t.amount.quantCoeff t.cashbox.currency.decimal_places,
        -(t.cashbox.currency.decimal_places : Int)⟩ } := by
  have hq : Dec.quantize t.cashbox.currency.decimal_places t.amount =
      some ⟨t.amount.quantCoeff t.cashbox.currency.decimal_places,
        -(t.cashbox.currency.decimal_places : Int)⟩ := by
    simp only [Dec.quantize]
    rw [if_pos hfit]
  have hclean : t.clean = .ok { t with amount :=
      ⟨t.amount.quantCoeff t.cashbox.currency.decimal_places,
        -(t.cashbox.currency.decimal_places : Int)⟩ } := by
    unfold Transaction.clean
    rw [hq]
  apply Transaction.full_clean_ok_of t _ hval hclean
  simp only [Dec.isPos, decide_eq_true_eq]
  exact (round_half_up_pos_iff t.amount _).mp hpos

/-- `Queryset.get(pk=pk)` finds a row exactly when one carries that id. -/
theorem any_id_eq (db : List Transaction) (pk : Nat) :
    db.any (fun t => t.id == pk) = true ↔ ∃ t ∈ db, t.id = pk := by
  simp [List.any_eq_true]

/-- Search with digits present but no matching row reports not-found;
with a matching row it resolves to the run's numeric value. -/
theorem transaction_search_run (db : List Transaction) (q : String) (run : List Char)
    (hne : pyStrip q ≠ "") (hsome : firstDigitRun (pyStrip q).data = some run) :
    ((∃ t ∈ db, t.id = natOfDigits run) →
      transaction_search db q = SearchResult.found (natOfDigits run)) ∧
    ((∀ t ∈ db, t.id ≠ natOfDigits run) →
      transaction_search db q = SearchResult.notFound) := by
  have hemp : (pyStrip q).isEmpty = false := by
    rcases hb : (pyStrip q).isEmpty with _ | _
    · rfl
    · exact absurd ((String.isEmpty_iff _).mp hb) hne
  constructor
  · intro hex
    have hany : db.any (fun t => t.id == natOfDigits run) = true := (any_id_eq db _).mpr hex
    simp only [transaction_search, hemp, Bool.false_eq_true, if_false, hsome, hany, if_true]
  · intro hnone
    have hany : db.any (fun t => t.id == natOfDigits run) = false := by
      rcases hb : db.any (fun t => t.id == natOfDigits run) with _ | _
      · rfl
      · rcases (any_id_eq db _).mp hb with ⟨t, ht, hid⟩
        exact absurd hid (hnone t ht)
    simp only [transaction_search, hemp, Bool.false_eq_true, if_false, hsome, hany]

/-- Search with no digit run in a nonempty query reports not-found. -/
theorem transaction_search_none (db : List Transaction) (q : String)
    (hne : pyStrip q ≠ "") (hnone : firstDigitRun (pyStrip q).data = none) :
    transaction_search db q = SearchResult.notFound := by
  have hemp : (pyStrip q).isEmpty = false := by
    rcases hb : (pyStrip q).isEmpty with _ | _
    · rfl
    · exact absurd ((String.isEmpty_iff _).mp hb) hne
  simp only [transaction_search, hemp, Bool.false_eq_true, if_false, hnone]

/-! ### Sample reference data for concrete witnesses -/

/-- USD with 2 decimal places, as in the repository's tests. -/
def usdCur : Currency := ⟨"USD", "US Dollar", "$", 2, true⟩

/-- EUR with 2 decimal places. -/
def eurCur : Currency := ⟨"EUR", "Euro", "E", 2, true⟩

/-- A USD cash box of customer 1. -/
def usdBox : CashBox := ⟨1, 1, usdCur, "CASH", ""⟩

/-- A EUR cash box of the same customer. -/
def eurBox : CashBox := ⟨2, 1, eurCur, "CASH", ""⟩

/-- Deposit of 100.00 USD. -/
def dep100 : Transaction := ⟨1, usdBox, .DEPOSIT, ⟨10000, -2⟩, ""⟩

/-- Withdrawal of 40.00 USD. -/
def wd40 : Transaction := ⟨2, usdBox, .WITHDRAW, ⟨4000, -2⟩, ""⟩

/-- Deposit of 10.00 EUR. -/
def depEur10 : Transaction := ⟨3, eurBox, .DEPOSIT, ⟨1000, -2⟩, ""⟩

/-- Deposit request of 12.3456 USD (needs rounding to 12.35). -/
def txMid : Transaction := ⟨4, usdBox, .DEPOSIT, ⟨123456, -4⟩, ""⟩

/-- Deposit request of 0.004 USD (positive, rounds to 0.00). -/
def txTiny : Transaction := ⟨5, usdBox, .DEPOSIT, ⟨4, -3⟩, ""⟩

/-- Deposit request of 0.1234567 USD (7 fractional digits, beyond the
storage column's 6). -/
def txExcess : Transaction := ⟨6, usdBox, .DEPOSIT, ⟨1234567, -7⟩, ""⟩

/-- Withdrawal request of 1000 USD. -/
def txBigWd : Transaction := ⟨7, usdBox, .WITHDRAW, ⟨1000, 0⟩, ""⟩

/-- Deposit request of 1E+30 USD (quantize overflows the context
precision). -/
def txHuge : Transaction := ⟨8, usdBox, .DEPOSIT, ⟨1, 30⟩, ""⟩

/-- A persisted transaction with id 123. -/
def tx123 : Transaction := ⟨123, usdBox, .DEPOSIT, ⟨10000, -2⟩, ""⟩

/-! ### The claims -/

/-- C1, counterexample: for the USD box (`decimal_places = 2`) and input
amount `0.1234567`, whose 7 fractional digits exceed the storage
column's 6, creation is rejected by field validation rather than
rounded — even though its half-up rounding at 2 places is the storable
positive amount `0.12`, nothing is stored. -/
theorem C1_excess_precision_rejected_cex :
    Transaction.save [] txExcess =
      .error [VError.fieldError "amount"
        "Ensure that there are no more than 6 decimal places."] ∧
    round_half_up txExcess.amount.value 2 = 12 / 100 := by
  constructor
  · decide
  · rw [round_half_up_value]
    norm_num [show Dec.quantCoeff 2 txExcess.amount = 12 from by decide]

/-- C1, amended: for every currency with `decimal_places = d`, whenever
transaction creation succeeds the stored amount is `round_half_up(a, d)`
written with exactly `d` fractional digits; an amount within the storage
field's limits (the `DecimalValidator(18, 6)` digit checks) whose
rounding is positive and fits the decimal context is accepted and
rounded, not rejected; and an amount already at scale `d` passes through
quantization unchanged.  (Amounts beyond the storage field's declared
precision are rejected by field validation — see the counterexample.) -/
theorem C1_amount_normalization (t : Transaction) (dp : Nat)
    (hdp : dp = t.cashbox.currency.decimal_places) :
    (∀ db db', Transaction.save db t = .ok db' →
      ∃ u, db' = db ++ [u] ∧ u.amount.exp = -(dp : Int) ∧
        u.amount.value = round_half_up t.amount.value dp) ∧
    (decimalValidator 18 6 t.amount = [] →
      (t.amount.quantCoeff dp).natAbs < 10 ^ decPrec →
      0 < round_half_up t.amount.value dp →
      ∃ u, t.full_clean = .ok u ∧ u.amount.exp = -(dp : Int) ∧
        u.amount.value = round_half_up t.amount.value dp) ∧
    (t.amount.exp = -(dp : Int) → t.amount.mant.natAbs < 10 ^ decPrec →
      Dec.quantize dp t.amount = some t.amount) := by
  subst hdp
  refine ⟨?_, ?_, ?_⟩
  · intro db db' hs
    obtain ⟨u, hfc, rfl⟩ := Transaction.save_ok _ _ _ hs
    obtain ⟨hval, hclean, hpos⟩ := Transaction.full_clean_ok _ _ hfc
    obtain ⟨_, _, _, _, he, hv⟩ := Transaction.clean_ok _ _ hclean
    exact ⟨u, rfl, he, hv⟩
  · intro hval hfit hpos
    refine ⟨_, Transaction.full_clean_succeeds t hval hfit hpos, rfl, ?_⟩
    show Dec.value ⟨t.amount.quantCoeff t.cashbox.currency.decimal_places,
      -(t.cashbox.currency.decimal_places : Int)⟩ =
        round_half_up t.amount.value t.cashbox.currency.decimal_places
    rw [Dec.value_mk_neg, round_half_up_value]
  · intro hexp hfit
    exact Dec.quantize_fixed _ _ hexp hfit

/-- C1, witness: depositing 12.3456 into the USD box is accepted and
stored as 12.35 (2 fractional digits). -/
theorem C1_amount_normalization_witness :
    ∃ u, txMid.full_clean = .ok u ∧ u.amount.exp = -(2 : Int) ∧
      u.amount.value = round_half_up txMid.amount.value 2 :=
  (C1_amount_normalization txMid 2 rfl).2.1 (by decide) (by decide)
    ((round_half_up_pos_iff txMid.amount 2).mpr (by decide))

/-- C2: when the amount's half-up rounding at the box currency's scale
is not strictly positive, creation fails with a validation error and the
stored table is unchanged — rounding happens before the positivity
check. -/
theorem C2_rounding_before_positivity (db : List Transaction) (t : Transaction)
    (h : round_half_up t.amount.value t.cashbox.currency.decimal_places ≤ 0) :
    (postTransaction db t).1 = db ∧
      ∃ errs, (postTransaction db t).2 = some errs ∧ errs ≠ [] := by
  obtain ⟨errs, he, hne⟩ := Transaction.full_clean_error_of_nonpos t h
  rw [postTransaction_error db t errs he]
  exact ⟨rfl, errs, rfl, hne⟩

/-- C2, witness: 0.004 USD is strictly positive but smaller than half
the smallest unit; it rounds to 0.00 and is rejected, persisting
nothing. -/
theorem C2_rounding_before_positivity_witness :
    0 < txTiny.amount.value ∧
    ((postTransaction [] txTiny).1 = [] ∧
      ∃ errs, (postTransaction [] txTiny).2 = some errs ∧ errs ≠ []) :=
  ⟨(Dec.pos_iff_value txTiny.amount).mp (by decide),
    C2_rounding_before_positivity [] txTiny (by
      rw [round_half_up_value]
      norm_num [show txTiny.cashbox.currency.decimal_places = 2 from rfl,
        show Dec.quantCoeff 2 txTiny.amount = 0 from by decide])⟩

/-- C3: a box's balance is the sum of its deposit amounts minus the sum
of its withdrawal amounts, and is invariant under reordering of the
stored transactions. -/
theorem C3_balance_signed_sum (box : CashBox) (db db' : List Transaction)
    (hperm : db.Perm db') :
    box.balance db = depositSum box db - withdrawSum box db ∧
      box.balance db = box.balance db' :=
  ⟨balance_eq_deposits_sub_withdrawals box db, balance_perm box db db' hperm⟩

/-- C3, witness: deposit 100.00 and withdraw 40.00 in either order. -/
theorem C3_balance_signed_sum_witness :
    usdBox.balance [dep100, wd40] =
      depositSum usdBox [dep100, wd40] - withdrawSum usdBox [dep100, wd40] ∧
    usdBox.balance [dep100, wd40] = usdBox.balance [wd40, dep100] :=
  C3_balance_signed_sum usdBox [dep100, wd40] [wd40, dep100]
    (List.Perm.swap wd40 dep100 [])

/-- C4: a box with no transactions has balance exactly zero (the SQL
aggregate is `NULL` and the `or Decimal("0")` guard yields zero — not an
error and not null). -/
theorem C4_balance_empty_zero (box : CashBox) (db : List Transaction)
    (h : boxTransactions box db = []) : box.balance db = 0 := by
  rw [CashBox.balance_eq_sum, h]
  rfl

/-- C4, witness: the USD box over the empty table. -/
theorem C4_balance_empty_zero_witness : usdBox.balance [] = 0 :=
  C4_balance_empty_zero usdBox [] rfl

/-- C5: a withdrawal is never blocked by the available balance — any
valid withdrawal whose rounded amount exceeds the box's cumulative
deposits is accepted, and the balance afterwards is negative. -/
theorem C5_withdraw_unconstrained (db : List Transaction) (t : Transaction)
    (hdir : t.direction = Direction.WITHDRAW)
    (hval : decimalValidator 18 6 t.amount = [])
    (hfit : (t.amount.quantCoeff t.cashbox.currency.decimal_places).natAbs < 10 ^ decPrec)
    (hpos : 0 < round_half_up t.amount.value t.cashbox.currency.decimal_places)
    (hdbpos : ∀ u ∈ db, 0 < u.amount.value)
    (hexceed : depositSum t.cashbox db <
      round_half_up t.amount.value t.cashbox.currency.decimal_places) :
    ∃ db', Transaction.save db t = .ok db' ∧ t.cashbox.balance db' < 0 := by
  have hfc := Transaction.full_clean_succeeds t hval hfit hpos
  refine ⟨db ++ [{ t with amount :=
    ⟨t.amount.quantCoeff t.cashbox.currency.decimal_places,
      -(t.cashbox.currency.decimal_places : Int)⟩ }], ?_, ?_⟩
  · unfold Transaction.save
    rw [hfc]
  · have happ := balance_append t.cashbox db { t with amount :=
      ⟨t.amount.quantCoeff t.cashbox.currency.decimal_places,
        -(t.cashbox.currency.decimal_places : Int)⟩ } rfl
    rw [happ]
    have hsgn : signedAmount { t with amount :=
        ⟨t.amount.quantCoeff t.cashbox.currency.decimal_places,
          -(t.cashbox.currency.decimal_places : Int)⟩ } =
        -(round_half_up t.amount.value t.cashbox.currency.decimal_places) := by
      simp only [signedAmount, hdir]
      show -(Dec.value ⟨t.amount.quantCoeff t.cashbox.currency.decimal_places,
        -(t.cashbox.currency.decimal_places : Int)⟩) = _
      rw [Dec.value_mk_neg, round_half_up_value]
    rw [hsgn, balance_eq_deposits_sub_withdrawals]
    have hw := withdrawSum_nonneg t.cashbox db hdbpos
    linarith

/-- C5, witness: withdrawing 1000 USD from the empty box succeeds and
leaves a negative balance. -/
theorem C5_withdraw_unconstrained_witness :
    ∃ db', Transaction.save [] txBigWd = .ok db' ∧ txBigWd.cashbox.balance db' < 0 := by
  refine C5_withdraw_unconstrained [] txBigWd rfl (by decide) (by decide) ?_
    (fun u hu => absurd hu (List.not_mem_nil u)) ?_
  · exact (round_half_up_pos_iff txBigWd.amount _).mpr (by decide)
  · rw [round_half_up_value]
    norm_num [depositSum, show txBigWd.cashbox.currency.decimal_places = 2 from rfl,
      show Dec.quantCoeff 2 txBigWd.amount = 100000 from by decide]

/-- C6: the customer report maps each currency code of the customer's
transacted boxes to the signed sum of the customer's transactions in
that currency, a code appears exactly when such a transaction exists,
and the grand total is the plain numeric sum of the per-currency
balances — which equals the unconverted signed sum over all of the
customer's transactions. -/
theorem C6_customer_report (cid : Nat) (db : List Transaction) :
    (∀ p ∈ perCurrency cid db, p.2 = currencyBalance cid p.1 db) ∧
    (∀ c : String, (∃ r, (c, r) ∈ perCurrency cid db) ↔
      ∃ t ∈ customerTxs cid db, t.cashbox.currency.code = c) ∧
    reportTotal cid db = ((perCurrency cid db).map (fun p => p.2)).sum ∧
    reportTotal cid db = ((customerTxs cid db).map signedAmount).sum :=
  ⟨fun p hp => perCurrency_mem cid db p hp, fun c => perCurrency_keys cid db c,
    rfl, reportTotal_eq cid db⟩

/-- C6, witness: customer 1 with a USD box (deposit 100, withdraw 40)
and a EUR box (deposit 10): the naive total is the raw signed sum. -/
theorem C6_customer_report_witness :
    reportTotal 1 [dep100, wd40, depEur10] =
      ((customerTxs 1 [dep100, wd40, depEur10]).map signedAmount).sum :=
  (C6_customer_report 1 [dep100, wd40, depEur10]).2.2.2

/-- C7: transaction lookup takes the first contiguous digit run of the
input as a numeric id with leading zeros insignificant ("#000123",
"TX-000123" resolve to 123 and "0000042" to 42); a digit-free input or
a missing id reports not-found rather than an error, and a present id
resolves to that transaction. -/
theorem C7_transaction_search (db : List Transaction) :
    (∀ q : String, pyStrip q ≠ "" → firstDigitRun (pyStrip q).data = none →
      transaction_search db q = SearchResult.notFound) ∧
    (∀ q run, pyStrip q ≠ "" → firstDigitRun (pyStrip q).data = some run →
      ((∃ t ∈ db, t.id = natOfDigits run) →
        transaction_search db q = SearchResult.found (natOfDigits run)) ∧
      ((∀ t ∈ db, t.id ≠ natOfDigits run) →
        transaction_search db q = SearchResult.notFound)) ∧
    ((∃ t ∈ db, t.id = 123) →
      transaction_search db "#000123" = SearchResult.found 123 ∧
      transaction_search db "TX-000123" = SearchResult.found 123) ∧
    ((∃ t ∈ db, t.id = 42) →
      transaction_search db "0000042" = SearchResult.found 42) ∧
    transaction_search db "abc" = SearchResult.notFound := by
  refine ⟨fun q hne hnone => transaction_search_none db q hne hnone,
    fun q run hne hsome => transaction_search_run db q run hne hsome, ?_, ?_, ?_⟩
  · intro hex
    constructor
    · have h := (transaction_search_run db "#000123"
        ['0', '0', '0', '1', '2', '3'] (by decide) (by decide)).1
      have h123 : natOfDigits ['0', '0', '0', '1', '2', '3'] = 123 := by decide
      rw [h123] at h
      exact h hex
    · have h := (transaction_search_run db "TX-000123"
        ['0', '0', '0', '1', '2', '3'] (by decide) (by decide)).1
      have h123 : natOfDigits ['0', '0', '0', '1', '2', '3'] = 123 := by decide
      rw [h123] at h
      exact h hex
  · intro hex
    have h := (transaction_search_run db "0000042"
      ['0', '0', '0', '0', '0', '4', '2'] (by decide) (by decide)).1
    have h42 : natOfDigits ['0', '0', '0', '0', '0', '4', '2'] = 42 := by decide
    rw [h42] at h
    exact h hex
  · exact transaction_search_none db "abc" (by decide) (by decide)

/-- C7, witness: with only transaction 123 stored, "#000123" resolves to
123, "0000042" is not-found, and "abc" is not-found. -/
theorem C7_transaction_search_witness :
    transaction_search [tx123] "#000123" = SearchResult.found 123 ∧
    transaction_search [tx123] "0000042" = SearchResult.notFound ∧
    transaction_search [tx123] "abc" = SearchResult.notFound :=
  ⟨((C7_transaction_search [tx123]).2.2.1 ⟨tx123, by decide, rfl⟩).1,
    ((C7_transaction_search [tx123]).2.1 "0000042"
      ['0', '0', '0', '0', '0', '4', '2'] (by decide) (by decide)).2 (by decide),
    (C7_transaction_search [tx123]).2.2.2.2⟩

/-- C8: a quantize failure surfaces as a validation error on the
`amount` field naming the currency code; a failed positivity check also
blocks creation; in every validation failure the stored table is
unchanged — no incomplete write. -/
theorem C8_validation_blocks (db : List Transaction) (t : Transaction) :
    (10 ^ decPrec ≤ (t.amount.quantCoeff t.cashbox.currency.decimal_places).natAbs →
      ∃ errs, postTransaction db t = (db, some errs) ∧
        VError.fieldError "amount"
          ("Invalid amount precision for " ++ t.cashbox.currency.code) ∈ errs) ∧
    (round_half_up t.amount.value t.cashbox.currency.decimal_places ≤ 0 →
      ∃ errs, postTransaction db t = (db, some errs) ∧ errs ≠ []) ∧
    (∀ errs, t.full_clean = .error errs → postTransaction db t = (db, some errs)) := by
  refine ⟨?_, ?_, fun errs he => postTransaction_error db t errs he⟩
  · intro hbig
    have hq : Dec.quantize t.cashbox.currency.decimal_places t.amount = none := by
      simp only [Dec.quantize]
      rw [if_neg (not_lt.mpr hbig)]
    have hclean : t.clean = .error (.fieldError "amount"
        ("Invalid amount precision for " ++ t.cashbox.currency.code)) := by
      unfold Transaction.clean
      rw [hq]
    have hfc : t.full_clean = .error (decimalValidator 18 6 t.amount ++
        [VError.fieldError "amount"
          ("Invalid amount precision for " ++ t.cashbox.currency.code)] ++
        (if t.amount.isPos then [] else [VError.nonFieldError amountPositiveMsg])) := by
      unfold Transaction.full_clean
      rw [hclean]
    refine ⟨_, postTransaction_error db t _ hfc, ?_⟩
    simp
  · intro hnp
    obtain ⟨errs, he, hne⟩ := Transaction.full_clean_error_of_nonpos t hnp
    exact ⟨errs, postTransaction_error db t errs he, hne⟩

/-- C8, witness: depositing 1E+30 USD cannot be quantized to 2 places
within the context precision; the error names USD and nothing is
stored. -/
theorem C8_validation_blocks_witness :
    ∃ errs, postTransaction [] txHuge = ([], some errs) ∧
      VError.fieldError "amount"
        ("Invalid amount precision for " ++ txHuge.cashbox.currency.code) ∈ errs :=
  (C8_validation_blocks [] txHuge).1 (by decide)

/-- C9: the storage operations never update or delete an existing row:
a failed creation leaves the table unchanged and a successful creation
only appends, so every persisted transaction (its amount and direction
included) is intact afterwards. -/
theorem C9_transactions_append_only (db : List Transaction) (t : Transaction) :
    ((postTransaction db t).2 ≠ none → (postTransaction db t).1 = db) ∧
    (∀ db', Transaction.save db t = .ok db' → ∃ u, db' = db ++ [u]) := by
  constructor
  · intro hne
    cases hfc : t.full_clean with
    | ok u =>
      rw [postTransaction_ok db t u hfc] at hne
      exact absurd rfl hne
    | error e =>
      rw [postTransaction_error db t e hfc]
  · intro db' hs
    obtain ⟨u, _, rfl⟩ := Transaction.save_ok db db' t hs
    exact ⟨u, rfl⟩

/-- C9, witness: saving the 40.00 withdrawal after the 100.00 deposit
leaves the deposit row untouched and only appends. -/
theorem C9_transactions_append_only_witness :
    ∃ u, [dep100, wd40] = [dep100] ++ [u] :=
  (C9_transactions_append_only [dep100] wd40).2 [dep100, wd40] (by decide)

/-- C10: an empty or all-whitespace search input returns to the
dashboard without the not-found flag — a third outcome distinct from
both a successful resolution and a not-found result. -/
theorem C10_empty_search (db : List Transaction) (q : String) (h : pyStrip q = "") :
    transaction_search db q = SearchResult.dashboard ∧
      SearchResult.dashboard ≠ SearchResult.notFound ∧
      ∀ pk : Nat, SearchResult.dashboard ≠ SearchResult.found pk := by
  refine ⟨?_, by simp, fun pk => by simp⟩
  simp only [transaction_search, h]
  rfl

/-- C10, witness: a whitespace-only query over any table. -/
theorem C10_empty_search_witness :
    transaction_search [] "   " = SearchResult.dashboard :=
  (C10_empty_search [] "   " (by decide)).1

end Cashbox
